import Mathlib

/-!
Verification of the resolvable-expression editor core of the n8n editor-ui
front-end: segmentation of a text buffer into static/resolvable spans,
resolution of resolvable spans against a data context, diffing of
resolution snapshots into highlight instructions, debounced change
notification, and the FilterConditions parameter component.

The hosting components (SqlEditor.vue, FilterConditions.vue,
TemplateList.vue) are in the reviewed sources; the shared expression
manager (segmenter, resolver, differ) and the debounce helper are repo
code outside the reviewed sources, so those parts are modelled from the
specification, as marked on each definition.
-/

namespace EditorCore

/-- Kind of a span produced by the segmenter: literal text or a delimited
dynamic expression. -/
inductive SegmentKind where
  | Static
  | Resolvable
  deriving DecidableEq, Repr

/-- A segment of the buffer. `text` is the full source of the span
(delimiters included for resolvable spans); offsets are zero-based
character positions, `stop` exclusive (the source calls it `end`). -/
structure Segment where
  kind : SegmentKind
  text : List Char
  start : Nat
  stop : Nat
  deriving DecidableEq, Repr

/-- Modelled from the spec: left-to-right scan for the first occurrence of
`delim` in `buf`; on a hit returns the text before the occurrence and the
text after it. -/
def splitAtDelim (delim : List Char) : List Char → Option (List Char × List Char)
  | [] => none
  | c :: cs =>
    if delim.isPrefixOf (c :: cs) then
      some ([], (c :: cs).drop delim.length)
    else
      match splitAtDelim delim cs with
      | some (pre, post) => some (c :: pre, post)
      | none => none

theorem splitAtDelim_eq (delim : List Char) :
    ∀ (buf pre post : List Char), splitAtDelim delim buf = some (pre, post) →
      buf = pre ++ delim ++ post := by
  intro buf
  induction buf with
  | nil => intro pre post h; simp [splitAtDelim] at h
  | cons c cs ih =>
    intro pre post h
    by_cases hp : delim.isPrefixOf (c :: cs)
    · simp only [splitAtDelim, hp, if_pos, Option.some.injEq, Prod.mk.injEq] at h
      obtain ⟨t, ht⟩ := List.isPrefixOf_iff_prefix.mp hp
      obtain ⟨hpre, hpost⟩ := h
      subst hpre
      have hdrop : (c :: cs).drop delim.length = t := by
        rw [← ht, List.drop_left]
      rw [← hpost, hdrop, ← ht]
      simp
    · simp only [splitAtDelim, hp, if_neg, Bool.false_eq_true, not_false_iff] at h
      cases hrec : splitAtDelim delim cs with
      | none => rw [hrec] at h; simp at h
      | some pq =>
        obtain ⟨p, q⟩ := pq
        rw [hrec] at h
        simp only [Option.some.injEq, Prod.mk.injEq] at h
        obtain ⟨h1, h2⟩ := h
        have hcs := ih p q hrec
        rw [← h1, ← h2, hcs]
        simp

/-- Modelled from the spec: fuelled left-to-right segmentation loop.
`pos` is the absolute offset of the first character of `buf` in the
owning buffer. Each matched delimiter pair yields exactly one Resolvable
segment (first close-delimiter wins, no nesting); an open delimiter with
no close before the end of the buffer degrades the whole remaining text
to one Static segment. Fuel exhaustion also degrades to a Static
remainder, so the function is total and never raises. -/
def segmentGo (od cd : List Char) : Nat → Nat → List Char → List Segment
  | 0, pos, buf =>
    if buf.isEmpty then [] else [⟨SegmentKind.Static, buf, pos, pos + buf.length⟩]
  | fuel + 1, pos, buf =>
    match splitAtDelim od buf with
    | none => if buf.isEmpty then [] else [⟨SegmentKind.Static, buf, pos, pos + buf.length⟩]
    | some (pre, rest) =>
      match splitAtDelim cd rest with
      | none => if buf.isEmpty then [] else [⟨SegmentKind.Static, buf, pos, pos + buf.length⟩]
      | some (raw, tail) =>
        (if pre.isEmpty then [] else [⟨SegmentKind.Static, pre, pos, pos + pre.length⟩]) ++
          ⟨SegmentKind.Resolvable, od ++ raw ++ cd, pos + pre.length,
              pos + pre.length + (od ++ raw ++ cd).length⟩ ::
            segmentGo od cd fuel (pos + pre.length + (od ++ raw ++ cd).length) tail

/-- Modelled from the spec: `segment(buffer, openDelim, closeDelim)`, the
entry point of the Segmenter. The fuel `buf.length + 1` is enough for any
buffer because each produced Resolvable segment consumes at least the two
delimiters. -/
def segment (buf od cd : String) : List Segment :=
  segmentGo od.data cd.data (buf.data.length + 1) 0 buf.data

/-- Concatenated text of a list of segments. -/
def segmentsText : List Segment → List Char
  | [] => []
  | s :: rest => s.text ++ segmentsText rest

theorem segmentsText_append (a b : List Segment) :
    segmentsText (a ++ b) = segmentsText a ++ segmentsText b := by
  induction a with
  | nil => simp [segmentsText]
  | cons s rest ih => simp [segmentsText, ih]

theorem segmentGo_text (od cd : List Char) :
    ∀ (fuel pos : Nat) (buf : List Char),
      segmentsText (segmentGo od cd fuel pos buf) = buf := by
  intro fuel
  induction fuel with
  | zero =>
    intro pos buf
    by_cases hb : buf.isEmpty
    · simp [segmentGo, hb, segmentsText, List.isEmpty_iff.mp hb]
    · simp [segmentGo, hb, segmentsText]
  | succ n ih =>
    intro pos buf
    cases h1 : splitAtDelim od buf with
    | none =>
      by_cases hb : buf.isEmpty
      · simp [segmentGo, h1, hb, segmentsText, List.isEmpty_iff.mp hb]
      · simp [segmentGo, h1, hb, segmentsText]
    | some pr =>
      obtain ⟨pre, rest⟩ := pr
      cases h2 : splitAtDelim cd rest with
      | none =>
        by_cases hb : buf.isEmpty
        · simp [segmentGo, h1, h2, hb, segmentsText, List.isEmpty_iff.mp hb]
        · simp [segmentGo, h1, h2, hb, segmentsText]
      | some rt =>
        obtain ⟨raw, tail⟩ := rt
        have hbuf : buf = pre ++ od ++ rest := splitAtDelim_eq od buf pre rest h1
        have hrest : rest = raw ++ cd ++ tail := splitAtDelim_eq cd rest raw tail h2
        simp only [segmentGo, h1, h2]
        by_cases hp : pre.isEmpty
        · have hpe : pre = [] := List.isEmpty_iff.mp hp
          subst hpe
          simp [segmentsText, segmentsText_append, ih, hbuf, hrest]
        · simp [hp, segmentsText, segmentsText_append, ih, hbuf, hrest]

/-- The segments cover the half-open offset interval `[lo, hi)` in order:
each segment starts where its predecessor stopped, spans exactly its own
text, and the last one stops at `hi`. -/
def contiguousFrom : Nat → Nat → List Segment → Prop
  | lo, hi, [] => lo = hi
  | lo, hi, s :: rest => s.start = lo ∧ s.stop = lo + s.text.length ∧ contiguousFrom s.stop hi rest

/-- Offset `i` falls inside segment `s`. -/
def memOffset (i : Nat) (s : Segment) : Prop :=
  s.start ≤ i ∧ i < s.stop

instance (i : Nat) (s : Segment) : Decidable (memOffset i s) := by
  unfold memOffset; infer_instance

theorem contiguousFrom_le (lo hi : Nat) (segs : List Segment)
    (h : contiguousFrom lo hi segs) : lo ≤ hi := by
  induction segs generalizing lo with
  | nil => exact Nat.le_of_eq h
  | cons s rest ih =>
    obtain ⟨h1, h2, h3⟩ := h
    have := ih s.stop h3
    omega

theorem contiguousFrom_bounds (lo hi : Nat) (segs : List Segment)
    (h : contiguousFrom lo hi segs) :
    ∀ s ∈ segs, lo ≤ s.start ∧ s.stop ≤ hi := by
  induction segs generalizing lo with
  | nil => intro s hs; cases hs
  | cons t rest ih =>
    obtain ⟨h1, h2, h3⟩ := h
    intro s hs
    cases hs with
    | head =>
      refine ⟨Nat.le_of_eq h1.symm, ?_⟩
      exact contiguousFrom_le t.stop hi rest h3
    | tail _ hmem =>
      have := ih t.stop h3 s hmem
      omega

theorem contiguousFrom_unique (segs : List Segment) :
    ∀ (lo hi : Nat), contiguousFrom lo hi segs →
      ∀ i, lo ≤ i → i < hi → ∃! s, s ∈ segs ∧ memOffset i s := by
  induction segs with
  | nil =>
    intro lo hi h i hlo hhi
    simp only [contiguousFrom] at h
    omega
  | cons t rest ih =>
    intro lo hi h i hlo hhi
    obtain ⟨h1, h2, h3⟩ := h
    by_cases hi2 : i < t.stop
    · refine ⟨t, ⟨List.mem_cons_self t rest, ?_, hi2⟩, ?_⟩
      · omega
      · rintro s ⟨hmem, hs1, hs2⟩
        cases hmem with
        | head => rfl
        | tail _ hmem =>
          have := (contiguousFrom_bounds t.stop hi rest h3 s hmem).1
          omega
    · have hrec := ih t.stop hi h3 i (by omega) hhi
      obtain ⟨s, ⟨hmem, hoff⟩, huniq⟩ := hrec
      refine ⟨s, ⟨List.mem_cons_of_mem t hmem, hoff⟩, ?_⟩
      rintro u ⟨humem, hu⟩
      cases humem with
      | head => exact absurd hu.2 (by omega)
      | tail _ humem => exact huniq u ⟨humem, hu⟩

theorem segmentGo_contiguous (od cd : List Char) :
    ∀ (fuel pos : Nat) (buf : List Char),
      contiguousFrom pos (pos + buf.length) (segmentGo od cd fuel pos buf) := by
  intro fuel
  induction fuel with
  | zero =>
    intro pos buf
    by_cases hb : buf.isEmpty
    · simp [segmentGo, hb, contiguousFrom, List.isEmpty_iff.mp hb]
    · simp [segmentGo, hb, contiguousFrom]
  | succ n ih =>
    intro pos buf
    cases h1 : splitAtDelim od buf with
    | none =>
      by_cases hb : buf.isEmpty
      · simp [segmentGo, h1, hb, contiguousFrom, List.isEmpty_iff.mp hb]
      · simp [segmentGo, h1, hb, contiguousFrom]
    | some pr =>
      obtain ⟨pre, rest⟩ := pr
      cases h2 : splitAtDelim cd rest with
      | none =>
        by_cases hb : buf.isEmpty
        · simp [segmentGo, h1, h2, hb, contiguousFrom, List.isEmpty_iff.mp hb]
        · simp [segmentGo, h1, h2, hb, contiguousFrom]
      | some rt =>
        obtain ⟨raw, tail⟩ := rt
        have hbuf : buf = pre ++ od ++ rest := splitAtDelim_eq od buf pre rest h1
        have hrest : rest = raw ++ cd ++ tail := splitAtDelim_eq cd rest raw tail h2
        have hhi : pos + buf.length = pos + pre.length + (od ++ raw ++ cd).length + tail.length := by
          rw [hbuf, hrest]
          simp [List.length_append]
          omega
        simp only [segmentGo, h1, h2]
        rw [hhi]
        by_cases hp : pre.isEmpty
        · rw [if_pos hp]
          have hpe : pre = [] := List.isEmpty_iff.mp hp
          subst hpe
          rw [List.nil_append]
          simp only [contiguousFrom]
          exact ⟨rfl, by simp, ih (pos + List.length [] + (od ++ raw ++ cd).length) tail⟩
        · rw [if_neg hp, List.singleton_append]
          simp only [contiguousFrom]
          exact ⟨by trivial, by trivial, by trivial, by trivial,
            ih (pos + pre.length + (od ++ raw ++ cd).length) tail⟩

theorem segment_contiguous (buf od cd : String) :
    contiguousFrom 0 buf.data.length (segment buf od cd) := by
  have h := segmentGo_contiguous od.data cd.data (buf.data.length + 1) 0 buf.data
  rw [Nat.zero_add] at h
  exact h

/-- C1: for every buffer and delimiter pair, `segment` returns an ordered
sequence of contiguous, non-overlapping segments whose concatenated text
equals the buffer exactly, with every offset of the buffer belonging to
exactly one segment. -/
theorem segment_partition_c1 (buf od cd : String) :
    segmentsText (segment buf od cd) = buf.data ∧
    contiguousFrom 0 buf.data.length (segment buf od cd) ∧
    ∀ i, i < buf.data.length → ∃! s, s ∈ segment buf od cd ∧ memOffset i s := by
  refine ⟨segmentGo_text od.data cd.data (buf.data.length + 1) 0 buf.data,
    segment_contiguous buf od cd, ?_⟩
  intro i hi
  exact contiguousFrom_unique (segment buf od cd) 0 buf.data.length
    (segment_contiguous buf od cd) i (Nat.zero_le i) hi

/-- Witness for C1 on the spec scenario buffer
`SELECT * FROM {{ $json.table }}` with delimiters `{{` / `}}`. -/
theorem segment_partition_c1_witness :
    segmentsText (segment "SELECT * FROM \x7b\x7b $json.table \x7d\x7d" "\x7b\x7b" "\x7d\x7d") =
      ("SELECT * FROM \x7b\x7b $json.table \x7d\x7d").data ∧
    (∃! s, s ∈ segment "SELECT * FROM \x7b\x7b $json.table \x7d\x7d" "\x7b\x7b" "\x7d\x7d" ∧
      memOffset 5 s) := by
  have h := segment_partition_c1 "SELECT * FROM \x7b\x7b $json.table \x7d\x7d" "\x7b\x7b" "\x7d\x7d"
  exact ⟨h.1, h.2.2 5 (by decide)⟩

/-- C4: a buffer containing an open delimiter with no matching close
delimiter before the end of the buffer degrades to a single trailing
Static segment holding the unmatched text; no Resolvable segment is
emitted and no fatal error is raised (`segment` is a total function by
construction). -/
theorem segment_unterminated_c4 (buf od cd : String) (pre rest : List Char)
    (hopen : splitAtDelim od.data buf.data = some (pre, rest))
    (hclose : splitAtDelim cd.data rest = none) :
    segment buf od cd = [⟨SegmentKind.Static, buf.data, 0, buf.data.length⟩] := by
  have hne : buf.data ≠ [] := by
    intro h0
    rw [h0] at hopen
    simp [splitAtDelim] at hopen
  unfold segment
  simp only [segmentGo, hopen, hclose]
  rw [if_neg (fun hemp => hne (List.isEmpty_iff.mp hemp)), Nat.zero_add]

/-- Witness for C4 on the spec scenario `abc {{ $json.x`: one Static
segment equal to the whole string. -/
theorem segment_unterminated_c4_witness :
    segment "abc \x7b\x7b $json.x" "\x7b\x7b" "\x7d\x7d" =
      [⟨SegmentKind.Static, ("abc \x7b\x7b $json.x").data, 0,
        ("abc \x7b\x7b $json.x").data.length⟩] :=
  segment_unterminated_c4 "abc \x7b\x7b $json.x" "\x7b\x7b" "\x7d\x7d"
    ("abc ").data (" $json.x").data (by decide) (by decide)

/-- A timestamped event entering the Change Notifier; `payload` is the
full state carried by the mutation (for buffer edits, the resulting
buffer text). Times are in milliseconds. -/
structure TimedEvent (α : Type) where
  time : Nat
  payload : α
  deriving DecidableEq, Repr

/-- Modelled from the spec: the Change Notifier / `callDebounced` helper
(the `useDebounce` composable is outside the reviewed sources). Given
mutations in arrival order, a pending timer armed at a mutation is reset
by any further mutation arriving strictly before the timer fires; when
the timer fires, one notification is emitted at `time + w` carrying that
mutation's payload, and the notifier returns to idle. -/
def debounceEmits {α : Type} (w : Nat) : List (TimedEvent α) → List (Nat × α)
  | [] => []
  | [m] => [(m.time + w, m.payload)]
  | m :: m' :: rest =>
    if m'.time < m.time + w then
      debounceEmits w (m' :: rest)
    else
      (m.time + w, m.payload) :: debounceEmits w (m' :: rest)

/-- The last event of `m :: ms`. -/
def lastEvent {α : Type} : TimedEvent α → List (TimedEvent α) → TimedEvent α
  | m, [] => m
  | _, m' :: rest => lastEvent m' rest

/-- The events form a single burst for window `w`: each arrives strictly
before the previous one's timer would fire. -/
def burstWithin {α : Type} (w : Nat) : List (TimedEvent α) → Prop
  | [] => True
  | [_] => True
  | m :: m' :: rest => m'.time < m.time + w ∧ burstWithin w (m' :: rest)

instance {α : Type} (w : Nat) (ms : List (TimedEvent α)) : Decidable (burstWithin w ms) := by
  induction ms with
  | nil => exact isTrue trivial
  | cons m rest ih =>
    cases rest with
    | nil => exact isTrue trivial
    | cons m' rest' =>
      unfold burstWithin
      exact instDecidableAnd

theorem debounceEmits_burst {α : Type} (w : Nat) :
    ∀ (m : TimedEvent α) (ms : List (TimedEvent α)), burstWithin w (m :: ms) →
      debounceEmits w (m :: ms) = [((lastEvent m ms).time + w, (lastEvent m ms).payload)] := by
  intro m ms
  induction ms generalizing m with
  | nil => intro _; rfl
  | cons m' rest ih =>
    intro hb
    obtain ⟨h1, h2⟩ := hb
    simp only [debounceEmits, if_pos h1, lastEvent]
    exact ih m' h2

/-- C2: for every burst of buffer-mutation events (each arriving before
the previous timer fires), the Change Notifier emits exactly one
notification, after the quiescent window following the last mutation of
the burst, carrying the payload of that last mutation. -/
theorem debounce_burst_c2 (w : Nat) (m : TimedEvent String) (ms : List (TimedEvent String))
    (hb : burstWithin w (m :: ms)) :
    debounceEmits w (m :: ms) = [((lastEvent m ms).time + w, (lastEvent m ms).payload)] ∧
    (debounceEmits w (m :: ms)).length = 1 :=
  ⟨debounceEmits_burst w m ms hb, by rw [debounceEmits_burst w m ms hb]; rfl⟩

/-- Witness for C2 on the spec schedule: mutations at t = 0, 200, 400,
900 ms with a 1000 ms window yield the single notification (1900, state
at t = 900). -/
theorem debounce_burst_c2_witness :
    debounceEmits 1000
        [(⟨0, "s0"⟩ : TimedEvent String), ⟨200, "s1"⟩, ⟨400, "s2"⟩, ⟨900, "s3"⟩] =
      [(1900, "s3")] := by
  have h := debounce_burst_c2 1000 ⟨0, "s0"⟩ [⟨200, "s1"⟩, ⟨400, "s2"⟩, ⟨900, "s3"⟩] (by decide)
  simpa [lastEvent] using h.1

/-- A JSON-like runtime value, the shape of the data a resolvable
expression is evaluated against. -/
inductive JsonValue where
  | nul
  | boolean (b : Bool)
  | str (s : String)
  | num (n : Int)
  | obj (fields : List (String × JsonValue))

/-- The data context: a read-only mapping from root names (such as
`$json`) to runtime values. -/
def DataContext : Type := List (String × JsonValue)

/-- Modelled from the spec: a raw resolvable expression, as a rooted
property path (for example `$json.table` is root `$json`, path
`[table]`); the Resolver itself is in the expression-manager mixin
outside the reviewed sources. -/
structure RawExpression where
  root : String
  path : List String
  deriving DecidableEq, Repr

/-- Error classes of the Resolver taxonomy. -/
inductive ResolutionError where
  | contextUnavailable (key : String)
  | incomplete
  deriving DecidableEq, Repr

/-- First binding of `key` in an association list of fields. -/
def lookupField (key : String) : List (String × JsonValue) → Option JsonValue
  | [] => none
  | (k, v) :: rest => if k = key then some v else lookupField key rest

/-- Modelled from the spec: descend through the value along the property
path; a missing key or a non-object intermediate resolves to an explicit
context-unavailable error, never a crash. -/
def resolvePath : List String → JsonValue → Except ResolutionError JsonValue
  | [], v => Except.ok v
  | key :: rest, JsonValue.obj fields =>
    match lookupField key fields with
    | some v => resolvePath rest v
    | none => Except.error (ResolutionError.contextUnavailable key)
  | key :: _, _ => Except.error (ResolutionError.contextUnavailable key)

/-- Modelled from the spec: `resolve(rawExpression, context)`, a pure
function of the raw expression and the data context. -/
def resolve (e : RawExpression) (ctx : DataContext) : Except ResolutionError JsonValue :=
  match lookupField e.root ctx with
  | some v => resolvePath e.path v
  | none => Except.error (ResolutionError.contextUnavailable e.root)

/-- State-threaded variant of `resolvePath`: the context travels through
every recursive step, so that non-mutation is a provable property rather
than a typing convention. -/
def resolvePathSt : List String → JsonValue → DataContext →
    Except ResolutionError JsonValue × DataContext
  | [], v, ctx => (Except.ok v, ctx)
  | key :: rest, JsonValue.obj fields, ctx =>
    match lookupField key fields with
    | some v => resolvePathSt rest v ctx
    | none => (Except.error (ResolutionError.contextUnavailable key), ctx)
  | key :: _, _, ctx => (Except.error (ResolutionError.contextUnavailable key), ctx)

/-- State-threaded variant of `resolve`. -/
def resolveSt (e : RawExpression) (ctx : DataContext) :
    Except ResolutionError JsonValue × DataContext :=
  match lookupField e.root ctx with
  | some v => resolvePathSt e.path v ctx
  | none => (Except.error (ResolutionError.contextUnavailable e.root), ctx)

theorem resolvePathSt_pure (path : List String) (v : JsonValue) (ctx : DataContext) :
    resolvePathSt path v ctx = (resolvePath path v, ctx) := by
  induction path generalizing v with
  | nil => rfl
  | cons key rest ih =>
    cases v with
    | obj fields =>
      simp only [resolvePathSt, resolvePath]
      cases lookupField key fields with
      | some w => exact ih w
      | none => rfl
    | nul => rfl
    | boolean b => rfl
    | str s => rfl
    | num n => rfl

/-- C3: resolution is a pure, deterministic function of the raw
expression and the data context: the state-threaded evaluation returns
the context unchanged together with the value `resolve` computes, and two
calls with identical inputs yield identical results. -/
theorem resolve_pure_c3 (e : RawExpression) (ctx : DataContext) :
    resolveSt e ctx = (resolve e ctx, ctx) ∧
    (∀ (e₂ : RawExpression) (ctx₂ : DataContext), e = e₂ → ctx = ctx₂ →
      resolve e ctx = resolve e₂ ctx₂) := by
  constructor
  · unfold resolveSt resolve
    cases lookupField e.root ctx with
    | some v => exact resolvePathSt_pure e.path v ctx
    | none => rfl
  · intro e₂ ctx₂ he hctx
    rw [he, hctx]

/-- Witness for C3 on the spec scenario: `$json.table` against the
context where `$json` maps to the object with `table = users` resolves to
the string `users`, leaves the context untouched, and repeats
identically. -/
theorem resolve_pure_c3_witness :
    resolveSt ⟨"$json", ["table"]⟩ [("$json", JsonValue.obj [("table", JsonValue.str "users")])] =
      (Except.ok (JsonValue.str "users"),
        [("$json", JsonValue.obj [("table", JsonValue.str "users")])]) ∧
    resolve ⟨"$json", ["table"]⟩ [("$json", JsonValue.obj [("table", JsonValue.str "users")])] =
      Except.ok (JsonValue.str "users") := by
  have h := resolve_pure_c3 ⟨"$json", ["table"]⟩
    [("$json", JsonValue.obj [("table", JsonValue.str "users")])]
  have hv : resolve ⟨"$json", ["table"]⟩
      [("$json", JsonValue.obj [("table", JsonValue.str "users")])] =
      Except.ok (JsonValue.str "users") := rfl
  exact ⟨by rw [h.1, hv], hv⟩

/-- Visual classification of a resolved span. -/
inductive HighlightKind where
  | Resolvable
  | Error
  deriving DecidableEq, Repr

/-- A resolution snapshot entry for one resolvable span. -/
structure Resolution where
  start : Nat
  stop : Nat
  raw : String
  classification : HighlightKind
  deriving DecidableEq, Repr

/-- Add or remove a visual marking. -/
inductive HighlightOp where
  | Add
  | Remove
  deriving DecidableEq, Repr

/-- A highlight instruction issued to the hosting editor surface. -/
structure HighlightInstruction where
  op : HighlightOp
  start : Nat
  stop : Nat
  classification : HighlightKind
  deriving DecidableEq, Repr

/-- The Differ matching key: (start offset, raw text). -/
def resKey (r : Resolution) : Nat × String :=
  (r.start, r.raw)

/-- Boolean matching-key equality. -/
def sameKey (a b : Resolution) : Bool :=
  a.start == b.start && a.raw == b.raw

/-- Modelled from the spec: `diff(previous, current)` of the Segment
Cache / Differ (the resolvable highlighter lives outside the reviewed
sources). A current entry with no key-matched previous entry emits an
Add; a previous entry with no key-matched current entry emits a Remove;
a key-matched pair with differing classification emits Remove-then-Add
for that range. -/
def diff (previous current : List Resolution) : List HighlightInstruction :=
  (previous.filterMap fun p =>
    if current.any (sameKey p) then none
    else some ⟨HighlightOp.Remove, p.start, p.stop, p.classification⟩) ++
  (current.flatMap fun c =>
    match previous.find? (sameKey c) with
    | none => [⟨HighlightOp.Add, c.start, c.stop, c.classification⟩]
    | some p =>
      if p.classification == c.classification then []
      else [⟨HighlightOp.Remove, c.start, c.stop, p.classification⟩,
            ⟨HighlightOp.Add, c.start, c.stop, c.classification⟩])

/-- C5: for every resolution list with pairwise-distinct matching keys
(segments are non-overlapping, so start offsets never repeat), diffing a
snapshot against itself yields no highlight instruction. -/
theorem diff_idempotent_c5 (S : List Resolution) (hnd : (S.map resKey).Nodup) :
    diff S S = [] := by
  unfold diff
  have hrem : (S.filterMap fun p =>
      if S.any (sameKey p) then none
      else some ⟨HighlightOp.Remove, p.start, p.stop, p.classification⟩) =
      ([] : List HighlightInstruction) := by
    rw [List.filterMap_eq_nil_iff]
    intro p hp
    have hany : S.any (sameKey p) = true := List.any_eq_true.mpr ⟨p, hp, by simp [sameKey]⟩
    simp [hany]
  have hadd : (S.flatMap fun c =>
      match S.find? (sameKey c) with
      | none => [⟨HighlightOp.Add, c.start, c.stop, c.classification⟩]
      | some p =>
        if p.classification == c.classification then ([] : List HighlightInstruction)
        else [⟨HighlightOp.Remove, c.start, c.stop, p.classification⟩,
              ⟨HighlightOp.Add, c.start, c.stop, c.classification⟩]) =
      ([] : List HighlightInstruction) := by
    rw [List.flatMap_eq_nil_iff]
    intro c hc
    cases hf : S.find? (sameKey c) with
    | none =>
      rw [List.find?_eq_none] at hf
      exact absurd (by simp [sameKey] : sameKey c c = true) (by simpa using hf c hc)
    | some p =>
      have hpc : sameKey c p = true := List.find?_some hf
      have hpm : p ∈ S := List.mem_of_find?_eq_some hf
      have hkey : resKey p = resKey c := by
        have := hpc
        simp only [sameKey, Bool.and_eq_true, beq_iff_eq] at this
        simp [resKey, this.1, this.2]
      have hpceq : p = c := List.inj_on_of_nodup_map hnd hpm hc hkey
      subst hpceq
      simp
  rw [hrem, hadd]
  rfl

/-- Witness for C5 on a concrete two-entry snapshot. -/
theorem diff_idempotent_c5_witness :
    diff
      [⟨14, 31, " $json.table ", HighlightKind.Resolvable⟩,
        ⟨40, 52, " $json.x ", HighlightKind.Error⟩]
      [⟨14, 31, " $json.table ", HighlightKind.Resolvable⟩,
        ⟨40, 52, " $json.x ", HighlightKind.Error⟩] = [] :=
  diff_idempotent_c5
    [⟨14, 31, " $json.table ", HighlightKind.Resolvable⟩,
      ⟨40, 52, " $json.x ", HighlightKind.Error⟩] (by decide)

/-- Filter options record. Modelled from the spec: the
FilterConditions/constants module and the n8n-workflow types are outside
the reviewed sources; the claims do not depend on the concrete
field values. -/
structure FilterOptionsValue where
  caseSensitive : Bool
  leftValue : String
  typeValidation : String
  deriving DecidableEq, Repr

/-- Modelled from the spec: DEFAULT_FILTER_OPTIONS of
FilterConditions/constants (outside the reviewed sources). -/
def DEFAULT_FILTER_OPTIONS : FilterOptionsValue :=
  ⟨true, "", "strict"⟩

/-- A condition's comparison operator. -/
structure FilterOperatorValue where
  type : String
  operation : String
  deriving DecidableEq, Repr

/-- Modelled from the spec: DEFAULT_OPERATOR_VALUE of
FilterConditions/constants (outside the reviewed sources). -/
def DEFAULT_OPERATOR_VALUE : FilterOperatorValue :=
  ⟨"string", "equals"⟩

/-- Modelled from the spec: DEFAULT_MAX_CONDITIONS of
FilterConditions/constants (outside the reviewed sources). -/
def DEFAULT_MAX_CONDITIONS : Nat := 10

/-- One filter condition row. -/
structure FilterConditionValue where
  id : String
  leftValue : String
  rightValue : String
  operator : FilterOperatorValue
  deriving DecidableEq, Repr

/-- From FilterConditions.vue `createCondition`: a fresh uuid, empty left
and right values, the default operator. The uuid source enters as the
explicit `freshId` argument. -/
def createCondition (freshId : String) : FilterConditionValue :=
  ⟨freshId, "", "", DEFAULT_OPERATOR_VALUE⟩

/-- The `value` prop of FilterConditions; every part may be absent. -/
structure FilterValue where
  options : Option FilterOptionsValue
  conditions : Option (List FilterConditionValue)
  combinator : Option String
  deriving DecidableEq, Repr

/-- `parameter.typeOptions.filter` of the node parameter. -/
structure FilterTypeOptions where
  allowedCombinators : Option (List String)
  maxConditions : Option Nat
  leftValue : Option String
  deriving DecidableEq, Repr

/-- `parameter.typeOptions`. -/
structure ParameterTypeOptions where
  filter : Option FilterTypeOptions
  deriving DecidableEq, Repr

/-- The node parameter descriptor, restricted to the fields
FilterConditions.vue reads. -/
structure INodeProperties where
  name : String
  typeOptions : Option ParameterTypeOptions
  deriving DecidableEq, Repr

/-- From FilterConditions.vue `allowedCombinators`:
`parameter.typeOptions?.filter?.allowedCombinators` with the
fallback pair and / or. -/
def allowedCombinators (p : INodeProperties) : List String :=
  ((p.typeOptions.bind ParameterTypeOptions.filter).bind
    FilterTypeOptions.allowedCombinators).getD ["and", "or"]

/-- The reactive `state.paramValue` of FilterConditions.vue, with every
part populated. `combinator` stays optional because the source reads
`allowedCombinators.value[0]`, which is undefined for an empty list. -/
structure ParamValueState where
  options : FilterOptionsValue
  conditions : List FilterConditionValue
  combinator : Option String
  deriving DecidableEq, Repr

/-- From FilterConditions.vue state initialization:
`options: props.value?.options ?? DEFAULT_FILTER_OPTIONS`,
`conditions: props.value?.conditions ?? [createCondition()]`,
`combinator: props.value?.combinator ?? allowedCombinators.value[0]`. -/
def initialParamValue (p : INodeProperties) (value : Option FilterValue)
    (freshId : String) : ParamValueState :=
  ⟨(value.bind FilterValue.options).getD DEFAULT_FILTER_OPTIONS,
    (value.bind FilterValue.conditions).getD [createCondition freshId],
    (value.bind FilterValue.combinator) <|> (allowedCombinators p).head?⟩

/-- C9: when FilterConditions is initialized with a value whose options,
conditions and combinator are absent, the state is populated with
DEFAULT_FILTER_OPTIONS, one fresh condition (fresh id, empty left and
right values, the default operator) and the first allowed combinator, so
the conditions list is non-empty at initialization. -/
theorem filter_init_defaults_c9 (p : INodeProperties) (value : Option FilterValue)
    (freshId : String)
    (hopt : value.bind FilterValue.options = none)
    (hcond : value.bind FilterValue.conditions = none)
    (hcomb : value.bind FilterValue.combinator = none) :
    initialParamValue p value freshId =
      ⟨DEFAULT_FILTER_OPTIONS, [⟨freshId, "", "", DEFAULT_OPERATOR_VALUE⟩],
        (allowedCombinators p).head?⟩ ∧
    (initialParamValue p value freshId).conditions ≠ [] := by
  unfold initialParamValue
  rw [hopt, hcond, hcomb]
  exact ⟨rfl, by simp⟩

/-- Witness for C9: no value given, no typeOptions, so the first allowed
combinator is `and`. -/
theorem filter_init_defaults_c9_witness :
    initialParamValue ⟨"conditions", none⟩ none "id-1" =
      ⟨DEFAULT_FILTER_OPTIONS, [⟨"id-1", "", "", DEFAULT_OPERATOR_VALUE⟩], some "and"⟩ ∧
    (initialParamValue ⟨"conditions", none⟩ none "id-1").conditions ≠ [] := by
  have h := filter_init_defaults_c9 ⟨"conditions", none⟩ none "id-1" rfl rfl rfl
  exact ⟨by rw [h.1]; rfl, h.2⟩

/-- From FilterConditions.vue `maxConditions`:
`parameter.typeOptions?.filter?.maxConditions ?? DEFAULT_MAX_CONDITIONS`. -/
def maxConditions (p : INodeProperties) : Nat :=
  ((p.typeOptions.bind ParameterTypeOptions.filter).bind
    FilterTypeOptions.maxConditions).getD DEFAULT_MAX_CONDITIONS

/-- From FilterConditions.vue `maxConditionsReached`:
`maxConditions.value <= state.paramValue.conditions.length`. -/
def maxConditionsReached (p : INodeProperties) (st : ParamValueState) : Bool :=
  decide (maxConditions p ≤ st.conditions.length)

/-- From the FilterConditions.vue template: the add-condition button's
`:disabled` binding is exactly `maxConditionsReached`. -/
def addConditionDisabled (p : INodeProperties) (st : ParamValueState) : Bool :=
  maxConditionsReached p st

/-- From FilterConditions.vue `addCondition`: pushes a fresh condition,
with no guard of its own. -/
def addCondition (st : ParamValueState) (freshId : String) : ParamValueState :=
  ⟨st.options, st.conditions ++ [createCondition freshId], st.combinator⟩

/-- C10: the add-condition control is disabled exactly when the number of
conditions is at least `maxConditions` (defaulting to
DEFAULT_MAX_CONDITIONS when the parameter gives none); `addCondition`
itself appends a fresh condition unconditionally, so the bound is
enforced only through that disabled state. -/
theorem max_conditions_c10 (p : INodeProperties) (st : ParamValueState) :
    (addConditionDisabled p st = true ↔ maxConditions p ≤ st.conditions.length) ∧
    (p.typeOptions = none → maxConditions p = DEFAULT_MAX_CONDITIONS) ∧
    ∀ freshId,
      (addCondition st freshId).conditions = st.conditions ++ [createCondition freshId] ∧
      (addCondition st freshId).conditions.length = st.conditions.length + 1 := by
  refine ⟨?_, ?_, ?_⟩
  · simp [addConditionDisabled, maxConditionsReached]
  · intro h
    simp [maxConditions, h, Option.bind]
  · intro freshId
    exact ⟨rfl, by simp [addCondition]⟩

/-- Witness for C10 at a concrete parameter and state: with the default
bound of 10 and one condition the control is enabled, and adding grows
the list by one. -/
theorem max_conditions_c10_witness :
    addConditionDisabled ⟨"conditions", none⟩
        ⟨DEFAULT_FILTER_OPTIONS, [createCondition "id-1"], some "and"⟩ = false ∧
    (addCondition ⟨DEFAULT_FILTER_OPTIONS, [createCondition "id-1"], some "and"⟩
        "id-2").conditions.length = 2 := by
  have h := max_conditions_c10 ⟨"conditions", none⟩
    ⟨DEFAULT_FILTER_OPTIONS, [createCondition "id-1"], some "and"⟩
  constructor
  · have h1 := h.1
    by_cases hd : addConditionDisabled ⟨"conditions", none⟩
        ⟨DEFAULT_FILTER_OPTIONS, [createCondition "id-1"], some "and"⟩ = true
    · exact absurd (h1.mp hd) (by decide)
    · simpa using hd
  · exact (h.2.2 "id-2").2

/-- The owning node, restricted to the field the emit reads
(`props.node?.name`). -/
structure NodeModel where
  name : String
  deriving DecidableEq, Repr

/-- From FilterConditions.vue `defineEmits`: the `valueChanged` payload
`\x7b name, node, value \x7d`. `name` carries the field path
(`props.path`), `node` the owning node's name (`props.node?.name`, absent
when the node prop is null), `value` the filter value; the spec calls
these fieldPath, fieldOwner and value. -/
structure ValueChangedPayload where
  name : String
  node : Option String
  value : ParamValueState
  deriving DecidableEq, Repr

/-- The payload built at the emit site:
`\x7b name: props.path, value, node: props.node?.name \x7d`. -/
def buildValueChangedPayload (path : String) (node : Option NodeModel)
    (v : ParamValueState) : ValueChangedPayload :=
  ⟨path, node.map NodeModel.name, v⟩

/-- From FilterConditions.vue `watch(state.paramValue)`: every mutation of
the param value goes through `callDebounced` (1000 ms) before
`emit('valueChanged', ...)`; modelled by debouncing the timestamped
mutation stream and building the emitted payload from the state each
notification carries. -/
def filterValueChangedEmissions (w : Nat) (path : String) (node : Option NodeModel)
    (muts : List (TimedEvent ParamValueState)) : List (Nat × ValueChangedPayload) :=
  (debounceEmits w muts).map fun e => (e.1, buildValueChangedPayload path node e.2)

/-- C6: every debounced valueChanged event emitted at the output boundary
carries a record whose `name` field is the field path, whose `node` field
is the owning node, and whose `value` field is the final state of the
burst (the spec's fieldPath / fieldOwner / value). -/
theorem value_changed_payload_c6 (w : Nat) (path : String) (node : Option NodeModel)
    (m : TimedEvent ParamValueState) (ms : List (TimedEvent ParamValueState))
    (hb : burstWithin w (m :: ms)) :
    filterValueChangedEmissions w path node (m :: ms) =
      [((lastEvent m ms).time + w,
        ⟨path, node.map NodeModel.name, (lastEvent m ms).payload⟩)] := by
  unfold filterValueChangedEmissions
  rw [debounceEmits_burst w m ms hb]
  rfl

/-- Witness for C6 on a concrete two-mutation burst. -/
theorem value_changed_payload_c6_witness :
    filterValueChangedEmissions 1000 "parameters.conditions" (some ⟨"Edit Fields"⟩)
        [⟨0, ⟨DEFAULT_FILTER_OPTIONS, [createCondition "id-1"], some "and"⟩⟩,
          ⟨400, ⟨DEFAULT_FILTER_OPTIONS, [createCondition "id-1", createCondition "id-2"],
            some "and"⟩⟩] =
      [(1400, ⟨"parameters.conditions", some "Edit Fields",
        ⟨DEFAULT_FILTER_OPTIONS, [createCondition "id-1", createCondition "id-2"],
          some "and"⟩⟩)] := by
  have h := value_changed_payload_c6 1000 "parameters.conditions" (some ⟨"Edit Fields"⟩)
    ⟨0, ⟨DEFAULT_FILTER_OPTIONS, [createCondition "id-1"], some "and"⟩⟩
    [⟨400, ⟨DEFAULT_FILTER_OPTIONS, [createCondition "id-1", createCondition "id-2"],
      some "and"⟩⟩]
    (by constructor <;> trivial)
  simpa [lastEvent] using h

/-- The partial options record a successful `resolveParameter` call
produces; absent fields fall back to the spread base. -/
structure PartialFilterOptions where
  caseSensitive : Option Bool
  leftValue : Option String
  typeValidation : Option String
  deriving DecidableEq, Repr

/-- The JS object spread
`\x7b ...DEFAULT_FILTER_OPTIONS, ...resolved \x7d`. -/
def spreadOptions (base : FilterOptionsValue) (p : PartialFilterOptions) : FilterOptionsValue :=
  ⟨p.caseSensitive.getD base.caseSensitive,
    p.leftValue.getD base.leftValue,
    p.typeValidation.getD base.typeValidation⟩

/-- From FilterConditions.vue `watch(props.node?.parameters)`: without
typeOptions the watcher returns early (options unchanged); otherwise
`newOptions` starts at DEFAULT_FILTER_OPTIONS and the try block spreads
the `resolveParameter` result over the defaults; the empty catch swallows
any evaluation error, leaving the defaults. `resolveParameter` (outside
the reviewed sources) enters as the `resolved` argument, with
`Except.error` as its throw; the function is total, so nothing escapes
the watcher. -/
def recomputeOptions (typeOptions : Option FilterTypeOptions)
    (resolved : Except String PartialFilterOptions)
    (currentOptions : FilterOptionsValue) : FilterOptionsValue :=
  match typeOptions with
  | none => currentOptions
  | some _ =>
    match resolved with
    | Except.ok partialOpts => spreadOptions DEFAULT_FILTER_OPTIONS partialOpts
    | Except.error _ => DEFAULT_FILTER_OPTIONS

/-- From SqlEditor.vue `line(lineNumber)`: `doc.line` throws when the
line number is outside 1..lines; the catch returns null. The document is
modelled as its list of lines. -/
def lineSafe (docLines : List String) (lineNumber : Nat) : Option String :=
  if 1 ≤ lineNumber ∧ lineNumber ≤ docLines.length then docLines.get? (lineNumber - 1)
  else none

/-- One resolution pass over the resolvable spans of a buffer: every span
is resolved; a span's error is recorded in its own slot and the pass
continues with the remaining spans. -/
def resolvePass (es : List RawExpression) (ctx : DataContext) :
    List (Except ResolutionError JsonValue) :=
  es.map fun e => resolve e ctx

/-- C7: the errors of the taxonomy are handled locally in the pass that
produced them and nothing is thrown up to the hosting application: an
evaluation failure while recomputing filter options leaves the watcher
running and falls back to the default options; an out-of-range line
lookup yields null instead of an exception; and a resolution pass yields
one result per span, so one span's error never aborts its siblings. -/
theorem local_error_handling_c7 :
    (∀ (t : FilterTypeOptions) (err : String) (cur : FilterOptionsValue),
      recomputeOptions (some t) (Except.error err) cur = DEFAULT_FILTER_OPTIONS) ∧
    (∀ (docLines : List String) (n : Nat), ¬(1 ≤ n ∧ n ≤ docLines.length) →
      lineSafe docLines n = none) ∧
    (∀ (es : List RawExpression) (ctx : DataContext),
      (resolvePass es ctx).length = es.length) := by
  refine ⟨?_, ?_, ?_⟩
  · intro t err cur
    rfl
  · intro docLines n h
    unfold lineSafe
    rw [if_neg h]
  · intro es ctx
    unfold resolvePass
    rw [List.length_map]

/-- Witness for C7: a failing options recompute falls back to the
defaults; line 5 of a one-line document is null; the spec scenario
`$json.missing.path` against `\x7b $json: \x7b\x7d \x7d` yields a
context-unavailable result and the pass still yields one slot. -/
theorem local_error_handling_c7_witness :
    recomputeOptions (some ⟨none, none, none⟩) (Except.error "evaluation failed")
        DEFAULT_FILTER_OPTIONS = DEFAULT_FILTER_OPTIONS ∧
    lineSafe ["SELECT 1"] 5 = none ∧
    (resolvePass [⟨"$json", ["missing", "path"]⟩] [("$json", JsonValue.obj [])]).length = 1 ∧
    resolvePass [⟨"$json", ["missing", "path"]⟩] [("$json", JsonValue.obj [])] =
      [Except.error (ResolutionError.contextUnavailable "missing")] := by
  have h := local_error_handling_c7
  refine ⟨h.1 ⟨none, none, none⟩ "evaluation failed" DEFAULT_FILTER_OPTIONS,
    h.2.1 ["SELECT 1"] 5 (by decide),
    h.2.2 [⟨"$json", ["missing", "path"]⟩] [("$json", JsonValue.obj [])], rfl⟩

/-- From SqlEditor.vue `data`: the structural node kinds excluded from
the plain-text preview and the flattened resolvable list. -/
def skipSegments : List String := ["Statement", "CompositeIdentifier", "Parens"]

/-- A node of the parsed SQL buffer, by syntax-kind name. -/
structure SqlSyntaxNode where
  kind : String
  start : Nat
  stop : Nat
  deriving DecidableEq, Repr

/-- Modelled from the spec: the flattened resolvable list exposed to
collaborators skips the kinds in `skipSegments` (the expression-manager
walk that consumes `skipSegments` is outside the reviewed sources). -/
def flattenedNodes (nodes : List SqlSyntaxNode) : List SqlSyntaxNode :=
  nodes.filter fun n => !(skipSegments.contains n.kind)

/-- Modelled from the spec: the evaluation pass visits every node,
structural kinds included. -/
def evaluationPass {α : Type} (evalNode : SqlSyntaxNode → α)
    (nodes : List SqlSyntaxNode) : List (SqlSyntaxNode × α) :=
  nodes.map fun n => (n, evalNode n)

/-- C8: the Resolver excludes exactly the structural kinds Statement,
CompositeIdentifier and Parens from the flattened resolvable list exposed
to collaborators, while the evaluation pass still visits those nodes;
non-structural nodes stay in the list. -/
theorem skip_segments_c8 :
    skipSegments = ["Statement", "CompositeIdentifier", "Parens"] ∧
    (∀ (nodes : List SqlSyntaxNode) (n : SqlSyntaxNode), n ∈ nodes →
      (skipSegments.contains n.kind = true →
        n ∉ flattenedNodes nodes ∧
        ∀ (evalNode : SqlSyntaxNode → Except ResolutionError JsonValue),
          (n, evalNode n) ∈ evaluationPass evalNode nodes) ∧
      (skipSegments.contains n.kind = false → n ∈ flattenedNodes nodes)) := by
  refine ⟨rfl, ?_⟩
  intro nodes n hn
  constructor
  · intro hskip
    constructor
    · intro hmem
      have := (List.mem_filter.mp hmem).2
      rw [hskip] at this
      simp at this
    · intro evalNode
      exact List.mem_map_of_mem _ hn
  · intro hskip
    apply List.mem_filter.mpr
    exact ⟨hn, by rw [hskip]; rfl⟩

/-- Witness for C8: a Statement node is evaluated but not in the
flattened list; a Resolvable node is in the flattened list. -/
theorem skip_segments_c8_witness :
    (⟨"Statement", 0, 31⟩ : SqlSyntaxNode) ∉
      flattenedNodes [⟨"Statement", 0, 31⟩, ⟨"Resolvable", 14, 31⟩] ∧
    ((⟨"Statement", 0, 31⟩ : SqlSyntaxNode),
        (Except.ok JsonValue.nul : Except ResolutionError JsonValue)) ∈
      evaluationPass (fun _ => (Except.ok JsonValue.nul : Except ResolutionError JsonValue))
        [⟨"Statement", 0, 31⟩, ⟨"Resolvable", 14, 31⟩] ∧
    (⟨"Resolvable", 14, 31⟩ : SqlSyntaxNode) ∈
      flattenedNodes [⟨"Statement", 0, 31⟩, ⟨"Resolvable", 14, 31⟩] := by
  have h := skip_segments_c8
  have hs := h.2 [⟨"Statement", 0, 31⟩, ⟨"Resolvable", 14, 31⟩] ⟨"Statement", 0, 31⟩
    (by simp)
  have hr := h.2 [⟨"Statement", 0, 31⟩, ⟨"Resolvable", 14, 31⟩] ⟨"Resolvable", 14, 31⟩
    (by simp)
  exact ⟨(hs.1 (by decide)).1,
    (hs.1 (by decide)).2 (fun _ => (Except.ok JsonValue.nul : Except ResolutionError JsonValue)),
    hr.2 (by decide)⟩

end EditorCore
